import Mathlib

/-!
# Verification of the `signer` package (cbsinteractive/signer)

Shallow embedding of `src/signer.go`. Byte strings are modelled as
`List Nat`. The package wraps an external AEAD primitive
(`golang.org/x/crypto/chacha20poly1305`, XChaCha20-Poly1305), which is not
part of this repository; following the spec (§1, §6) it is modelled as an
abstract keyed AEAD together with the boundary contract the spec states
for it. All code of `src/signer.go` itself is translated directly.
-/

/-- `chacha20poly1305.NonceSizeX` (24), named `NonceSize` in src/signer.go. -/
def NonceSize : Nat := 24

/-- `Version = 'A'` (ASCII 65), src/signer.go line 12. -/
def Version : Nat := 65

/-- `hdrSize = 1 + NonceSize` (25), src/signer.go line 15. -/
def hdrSize : Nat := 1 + NonceSize

/-- `chacha20poly1305.KeySize` (32 bytes), required by `NewX`. -/
def KeySize : Nat := 32

/-- `chacha20poly1305.Overhead` (16 bytes), the Poly1305 tag appended by Seal. -/
def Overhead : Nat := 16

/-- The error outcomes observable from the package's API:
`errShort` is `ErrShort` ("message too short", src/signer.go line 20);
`keyLen` is the bad-key-size error returned by `chacha20poly1305.NewX`
and propagated by `New`; `authFailed` is the authentication failure
returned by the AEAD `Open`; `randFailure` is a `crypto/rand` read error
propagated by `mknonce`/`Sign`. -/
inductive Err where
  | keyLen
  | errShort
  | authFailed
  | randFailure
deriving DecidableEq, Repr

/-- An AEAD cipher instance (Go's `cipher.AEAD` as used here):
`Seal nonce plaintext ad` returns ciphertext with the tag appended;
`Open nonce ciphertext ad` returns the plaintext or fails. -/
structure AEADInst where
  Seal : List Nat → List Nat → List Nat → List Nat
  Open : List Nat → List Nat → List Nat → Option (List Nat)

/-- Modelled from the spec: the external AEAD primitive as a keyed family
(spec §6: "AEAD primitive: exposes `Seal(nonce, plaintext, associatedData)
-> ciphertext‖tag` and `Open(nonce, ciphertext‖tag, associatedData) ->
plaintext or AuthFailure`; fixed key size 32 bytes, fixed nonce size 24
bytes, fixed tag size 16 bytes"). The first argument of each field is the
key. -/
structure AEADPrim where
  Seal : List Nat → List Nat → List Nat → List Nat → List Nat
  Open : List Nat → List Nat → List Nat → List Nat → Option (List Nat)

/-- Modelled from the spec: `chacha20poly1305.NewX` (external to this
repository) fails exactly when the key is not 32 bytes (spec §4.1:
"length must equal exactly 32 bytes", failure `InvalidKeyLength`), and
otherwise returns the AEAD instance bound to the key. -/
def NewX (P : AEADPrim) (key : List Nat) : Except Err AEADInst :=
  if key.length = KeySize then .ok ⟨P.Seal key, P.Open key⟩ else .error .keyLen

/-- Modelled from the spec: the boundary contract of the external AEAD
primitive.
* `seal_length`: the tag is exactly 16 bytes appended to the ciphertext,
  which has the plaintext's length (spec §6 wire format and "fixed tag
  size 16").
* `open_seal`: opening a sealed value with the same key, nonce and
  associated data returns the plaintext (spec §4.2: "a Token that decodes
  uniquely back to `message`").
* `open_some`: `Open` succeeds only on genuine sealed values — the
  authentication tag "lets a verifier detect any modification"
  (spec glossary; §4.3 step 4).
* `seal_inj`: sealed values determine key, nonce, plaintext and associated
  data (tampering with nonce or associated data, or using a different
  key, is detected — spec §8 properties 4 and 5).
* `set_ne_seal`: changing any single position of a sealed value never
  yields a value sealed under the same key, nonce and associated data
  (spec §8 property 4: "flipping any single bit anywhere in a valid token
  ... causes `Verify` to fail"). -/
structure AEADPrim.Lawful (P : AEADPrim) : Prop where
  seal_length : ∀ k n m a, (P.Seal k n m a).length = m.length + Overhead
  open_seal : ∀ k n m a, P.Open k n (P.Seal k n m a) a = some m
  open_some : ∀ k n c a m, P.Open k n c a = some m → c = P.Seal k n m a
  seal_inj : ∀ k n m a k' n' m' a', P.Seal k n m a = P.Seal k' n' m' a' →
    k = k' ∧ n = n' ∧ m = m' ∧ a = a'
  set_ne_seal : ∀ k n m a m' j v, j < (P.Seal k n m a).length →
    v ≠ (P.Seal k n m a).getD j 0 → (P.Seal k n m a).set j v ≠ P.Seal k n m' a

/-- The `Signer` struct (src/signer.go lines 33-39): the AEAD instance and
the temporaries `n int` and `p [hdrSize]byte` used as a scratch buffer for
header assembly. `p` is modelled as a list that always has length
`hdrSize`. -/
structure Signer where
  aead : AEADInst
  n : Nat
  p : List Nat

/-- Go's `copy(dst[off:], src)`: writes `min (src.length) (dst.length - off)`
elements of `src` into `dst` starting at `off`, leaving the rest of `dst`
unchanged. -/
def copySlice (dst : List Nat) (off : Nat) (src : List Nat) : List Nat :=
  dst.take off ++ src.take (dst.length - off) ++ dst.drop (off + src.length)

/-- `func (s *Signer) put(p []byte) { s.n += copy(s.p[s.n:], p) }`
(src/signer.go lines 83-85). -/
def Signer.put (s : Signer) (q : List Nat) : Signer :=
  { s with p := copySlice s.p s.n q,
           n := s.n + min q.length (s.p.length - s.n) }

/-- `func (s Signer) sign(msg, nonce []byte) []byte` (src/signer.go lines
77-81). The receiver is a value, so the two `put` calls mutate a per-call
copy of the Signer; the token is `s.p[:s.n] ++ Seal(nonce, msg, s.p[:s.n])`. -/
def Signer.sign (s : Signer) (msg nonce : List Nat) : List Nat :=
  let s1 := s.put [Version]
  let s2 := s1.put nonce
  s2.p.take s2.n ++ s2.aead.Seal nonce msg (s2.p.take s2.n)

/-- `func New(key []byte) (*Signer, error)` (src/signer.go lines 24-30):
builds the AEAD instance via `chacha20poly1305.NewX` (propagating its
error) and returns `&Signer{aead: aead}` — the temporaries are
zero-valued (`n = 0`, `p` all zeros). -/
def New (P : AEADPrim) (key : List Nat) : Except Err Signer :=
  match NewX P key with
  | .error e => .error e
  | .ok aead => .ok { aead := aead, n := 0, p := List.replicate hdrSize 0 }

/-- `func (s *Signer) Sign(msg, nonce []byte) (t Token, err error)`
(src/signer.go lines 49-56). A `nil` nonce is `none`; the outcome of
`mknonce()` (a fresh 24-byte CSPRNG draw, or a `crypto/rand` error,
src/signer.go lines 71-75) is passed in as the oracle `rnd` and is
consulted only when the nonce is `none`. -/
def Signer.Sign (s : Signer) (msg : List Nat) (nonce : Option (List Nat))
    (rnd : Except Err (List Nat)) : Except Err (List Nat) :=
  match nonce with
  | none =>
    match rnd with
    | .error e => .error e
    | .ok nc => .ok (s.sign msg nc)
  | some nc => .ok (s.sign msg nc)

/-- `func (s *Signer) Verify(c Token) (msg []byte, err error)`
(src/signer.go lines 61-69): inputs shorter than `hdrSize` fail with
`ErrShort`; otherwise `ad = c[:25]`, `ae = c[25:]`, `nonce = ad[1:]` and
the result is `s.aead.Open(nil, nonce, ae, ad)`. -/
def Signer.Verify (s : Signer) (c : List Nat) : Except Err (List Nat) :=
  if c.length < hdrSize then .error .errShort
  else
    match s.aead.Open ((c.take hdrSize).drop 1) (c.drop hdrSize) (c.take hdrSize) with
    | some m => .ok m
    | none => .error .authFailed

/-- State-explicit semantics of a call `s.Sign(msg, nonce)`: Go's `Sign`
has a pointer receiver but never writes through it; the helper `sign` has
a value receiver, so the `put` calls during header assembly act on a
per-call copy of the Signer (`local_` below), never on the shared value.
Returns the call's result together with the post-call state of the shared
Signer. -/
def Signer.signCall (s : Signer) (msg : List Nat) (nonce : Option (List Nat))
    (rnd : Except Err (List Nat)) : (Except Err (List Nat)) × Signer :=
  let local_ := s
  let result := Signer.Sign local_ msg nonce rnd
  (result, s)

/-- State-explicit semantics of a call `s.Verify(c)`: the body only reads
the receiver, so the post-call state of the shared Signer is returned
unchanged. -/
def Signer.verifyCall (s : Signer) (c : List Nat) :
    (Except Err (List Nat)) × Signer :=
  (Signer.Verify s c, s)

/-! ## A concrete lawful AEAD primitive

A computable instance of the spec's AEAD contract, used to run the
theorems below on concrete inputs: the sealed value is the plaintext
followed by a 16-entry tag whose first entry encodes the key, nonce,
plaintext and associated data injectively. -/

/-- Injective, computable encoding of a list of naturals: pair the base
`b = foldr max 0 + 2` with the base-`b` value of the digit list obtained
by adding `1` to every entry (so every digit is nonzero and below `b`). -/
def encList (L : List Nat) : Nat :=
  Nat.pair (L.foldr max 0 + 2) (Nat.ofDigits (L.foldr max 0 + 2) (L.map (· + 1)))

theorem le_foldr_max (L : List Nat) : ∀ x ∈ L, x ≤ L.foldr max 0 := by
  induction L with
  | nil => intro x hx; cases hx
  | cons a t ih =>
    intro x hx
    rcases List.mem_cons.mp hx with h | h
    · subst h; exact le_max_left _ _
    · exact le_trans (ih x h) (le_max_right _ _)

theorem digits_encList (L : List Nat) :
    Nat.digits (L.foldr max 0 + 2) (Nat.ofDigits (L.foldr max 0 + 2) (L.map (· + 1)))
      = L.map (· + 1) := by
  refine Nat.digits_ofDigits _ (by omega) _ ?_ ?_
  · intro l hl
    rcases List.mem_map.mp hl with ⟨x, hx, rfl⟩
    have := le_foldr_max L x hx
    omega
  · intro hne
    have hmem := List.getLast_mem hne
    rcases List.mem_map.mp hmem with ⟨x, _, hx⟩
    omega

theorem encList_inj {L L' : List Nat} (h : encList L = encList L') : L = L' := by
  unfold encList at h
  rw [Nat.pair_eq_pair] at h
  obtain ⟨hb, hv⟩ := h
  have h1 := digits_encList L
  have h2 := digits_encList L'
  rw [hb] at hv
  rw [hb, hv, h2] at h1
  have hinj : Function.Injective (fun x : Nat => x + 1) := fun a b hab =>
    Nat.add_right_cancel hab
  exact (List.map_injective_iff.mpr hinj h1).symm

/-- Injective encoding of the quadruple (key, nonce, plaintext, associated
data). -/
def encQuad (k n m a : List Nat) : Nat :=
  Nat.pair (encList k) (Nat.pair (encList n) (Nat.pair (encList m) (encList a)))

theorem encQuad_inj {k n m a k' n' m' a' : List Nat}
    (h : encQuad k n m a = encQuad k' n' m' a') :
    k = k' ∧ n = n' ∧ m = m' ∧ a = a' := by
  unfold encQuad at h
  rw [Nat.pair_eq_pair] at h
  obtain ⟨h1, h⟩ := h
  rw [Nat.pair_eq_pair] at h
  obtain ⟨h2, h⟩ := h
  rw [Nat.pair_eq_pair] at h
  obtain ⟨h3, h4⟩ := h
  exact ⟨encList_inj h1, encList_inj h2, encList_inj h3, encList_inj h4⟩

/-- The 16-entry authentication tag of the concrete instance. -/
def tagOf (k n m a : List Nat) : List Nat :=
  encQuad k n m a :: List.replicate (Overhead - 1) 0

theorem tagOf_length (k n m a : List Nat) : (tagOf k n m a).length = Overhead := by
  simp [tagOf, Overhead]

theorem tagOf_inj {k n m a k' n' m' a' : List Nat}
    (h : tagOf k n m a = tagOf k' n' m' a') :
    k = k' ∧ n = n' ∧ m = m' ∧ a = a' := by
  unfold tagOf at h
  injection h with h1 h2
  exact encQuad_inj h1

/-- The concrete AEAD primitive: `Seal` appends the tag, `Open` checks
that the input is exactly a sealed value for the given key, nonce and
associated data. -/
def toyPrim : AEADPrim where
  Seal := fun k n m a => m ++ tagOf k n m a
  Open := fun k n c a =>
    if Overhead ≤ c.length ∧
        c = c.take (c.length - Overhead) ++ tagOf k n (c.take (c.length - Overhead)) a
    then some (c.take (c.length - Overhead)) else none

theorem toySeal_take (k n m a : List Nat) :
    (m ++ tagOf k n m a).take ((m ++ tagOf k n m a).length - Overhead) = m := by
  rw [List.length_append, tagOf_length, Nat.add_sub_cancel, List.take_left]

/-- The concrete primitive satisfies the spec's AEAD boundary contract. -/
theorem toyPrim_lawful : toyPrim.Lawful := by
  constructor
  · intro k n m a
    simp only [toyPrim]
    rw [List.length_append, tagOf_length]
  · intro k n m a
    simp only [toyPrim]
    have htake := toySeal_take k n m a
    rw [if_pos, htake]
    exact ⟨by rw [List.length_append, tagOf_length]; omega, by rw [htake]⟩
  · intro k n c a m h
    simp only [toyPrim] at h ⊢
    by_cases hcond : Overhead ≤ c.length ∧
        c = c.take (c.length - Overhead) ++ tagOf k n (c.take (c.length - Overhead)) a
    · rw [if_pos hcond] at h
      obtain rfl : c.take (c.length - Overhead) = m := Option.some.inj h
      exact hcond.2
    · rw [if_neg hcond] at h
      cases h
  · intro k n m a k' n' m' a' h
    simp only [toyPrim] at h
    obtain ⟨hm, ht⟩ := List.append_inj' h (by rw [tagOf_length, tagOf_length])
    obtain ⟨hk, hn, -, ha⟩ := tagOf_inj ht
    exact ⟨hk, hn, hm, ha⟩
  · intro k n m a m' j v hj hv heq
    simp only [toyPrim] at hj hv heq
    rw [List.set_append] at heq
    by_cases hjm : j < m.length
    · rw [if_pos hjm] at heq
      obtain ⟨hm, ht⟩ := List.append_inj' heq (by rw [tagOf_length, tagOf_length])
      obtain ⟨-, -, hmm, -⟩ := tagOf_inj ht
      subst hmm
      have hget : (m.set j v).getD j 0 = v := by
        rw [List.getD_eq_getElem _ _ (by simpa using hjm), List.getElem_set_self]
      rw [hm] at hget
      apply hv
      rw [List.getD_append _ _ _ _ hjm]
      exact hget.symm
    · rw [if_neg hjm] at heq
      push_neg at hjm
      obtain ⟨hm, ht⟩ := List.append_inj' heq
        (by rw [List.length_set, tagOf_length, tagOf_length])
      subst hm
      have hj' : j - m.length < (tagOf k n m a).length := by
        rw [tagOf_length]
        rw [List.length_append, tagOf_length] at hj
        omega
      have hget : ((tagOf k n m a).set (j - m.length) v).getD (j - m.length) 0 = v := by
        rw [List.getD_eq_getElem _ _ (by simpa using hj'), List.getElem_set_self]
      rw [ht] at hget
      apply hv
      rw [List.getD_append_right _ _ _ _ hjm]
      exact hget.symm

/-! ## Bridge lemmas -/

theorem New_ok (P : AEADPrim) (key : List Nat) (h : key.length = KeySize) :
    New P key = .ok ⟨⟨P.Seal key, P.Open key⟩, 0, List.replicate hdrSize 0⟩ := by
  simp [New, NewX, h]

theorem New_inv (P : AEADPrim) (key : List Nat) (s : Signer)
    (h : New P key = .ok s) :
    key.length = KeySize ∧ s = ⟨⟨P.Seal key, P.Open key⟩, 0, List.replicate hdrSize 0⟩ := by
  by_cases hk : key.length = KeySize
  · rw [New_ok P key hk] at h
    exact ⟨hk, (Except.ok.inj h).symm⟩
  · simp [New, NewX, hk] at h

/-- On a freshly constructed Signer (`n = 0`, `p` all zero), `sign`
assembles the header `Version ‖ nonce` in the per-call scratch buffer and
emits `header ++ Seal(nonce, msg, header)`. -/
theorem sign_fresh (aead : AEADInst) (msg nonce : List Nat)
    (hn : nonce.length = NonceSize) :
    Signer.sign ⟨aead, 0, List.replicate hdrSize 0⟩ msg nonce
      = (Version :: nonce) ++ aead.Seal nonce msg (Version :: nonce) := by
  have h1 : Signer.put ⟨aead, 0, List.replicate hdrSize 0⟩ [Version]
      = ⟨aead, 1, Version :: List.replicate NonceSize 0⟩ := by
    simp [Signer.put, copySlice, hdrSize, NonceSize]
  have h2 : Signer.put ⟨aead, 1, Version :: List.replicate NonceSize 0⟩ nonce
      = ⟨aead, hdrSize, Version :: nonce⟩ := by
    simp [Signer.put, copySlice, hdrSize, NonceSize, hn, List.take_of_length_le,
      List.drop_eq_nil_of_le]
  simp only [Signer.sign, h1, h2]
  simp [hdrSize, NonceSize, List.take_of_length_le, hn]

theorem verify_append_some (s : Signer) (hdr body m : List Nat)
    (hh : hdr.length = hdrSize)
    (ho : s.aead.Open (hdr.drop 1) body hdr = some m) :
    s.Verify (hdr ++ body) = .ok m := by
  unfold Signer.Verify
  rw [if_neg (by rw [List.length_append, hh]; omega), ← hh, List.take_left,
    List.drop_left, ho]

theorem verify_append_none (s : Signer) (hdr body : List Nat)
    (hh : hdr.length = hdrSize)
    (ho : s.aead.Open (hdr.drop 1) body hdr = none) :
    s.Verify (hdr ++ body) = .error .authFailed := by
  unfold Signer.Verify
  rw [if_neg (by rw [List.length_append, hh]; omega), ← hh, List.take_left,
    List.drop_left, ho]

/-- Flip bit `k` of the byte at position `i` of a byte string. -/
def flipBit (t : List Nat) (i k : Nat) : List Nat :=
  t.set i (t.getD i 0 ^^^ 2 ^ k)

theorem xor_pow_ne (b k : Nat) : b ^^^ 2 ^ k ≠ b := by
  intro h
  have h2 : b ^^^ (b ^^^ 2 ^ k) = b ^^^ b := congrArg (b ^^^ ·) h
  rw [← Nat.xor_assoc, Nat.xor_self, Nat.zero_xor] at h2
  exact absurd h2 (Nat.two_pow_pos k).ne'

/-- Verification of a token formed as header ++ sealed, after flipping any
single position, fails authentication: the header case is detected through
the associated-data binding (`seal_inj`), the body case through
`set_ne_seal`. -/
theorem verify_flip_fails (P : AEADPrim) (hP : P.Lawful) (key msg nonce : List Nat)
    (hn : nonce.length = NonceSize) (i k : Nat)
    (hi : i < ((Version :: nonce) ++ P.Seal key nonce msg (Version :: nonce)).length) :
    Signer.Verify ⟨⟨P.Seal key, P.Open key⟩, 0, List.replicate hdrSize 0⟩
      (flipBit ((Version :: nonce) ++ P.Seal key nonce msg (Version :: nonce)) i k)
      = .error .authFailed := by
  have hhdr : (Version :: nonce).length = hdrSize := by
    simp [hdrSize, NonceSize, hn]
  by_cases hih : i < (Version :: nonce).length
  · -- flip inside the header
    have hflip : flipBit ((Version :: nonce) ++ P.Seal key nonce msg (Version :: nonce)) i k
        = (Version :: nonce).set i
            (((Version :: nonce) ++ P.Seal key nonce msg (Version :: nonce)).getD i 0 ^^^ 2 ^ k)
          ++ P.Seal key nonce msg (Version :: nonce) := by
      unfold flipBit
      rw [List.set_append, if_pos hih]
    rw [hflip]
    apply verify_append_none _ _ _ (by rw [List.length_set]; exact hhdr)
    show P.Open key _ _ _ = none
    cases ho : P.Open key
        (((Version :: nonce).set i
          (((Version :: nonce) ++ P.Seal key nonce msg (Version :: nonce)).getD i 0 ^^^ 2 ^ k)).drop 1)
        (P.Seal key nonce msg (Version :: nonce))
        ((Version :: nonce).set i
          (((Version :: nonce) ++ P.Seal key nonce msg (Version :: nonce)).getD i 0 ^^^ 2 ^ k)) with
    | none => rfl
    | some m' =>
      exfalso
      have hseal := hP.open_some _ _ _ _ _ ho
      have hinj := hP.seal_inj _ _ _ _ _ _ _ _ hseal
      have ha := hinj.2.2.2
      -- ha : Version :: nonce = (Version :: nonce).set i (... ^^^ 2 ^ k)
      have hgetset : ((Version :: nonce).set i
          (((Version :: nonce) ++ P.Seal key nonce msg (Version :: nonce)).getD i 0 ^^^ 2 ^ k)).getD i 0
          = ((Version :: nonce) ++ P.Seal key nonce msg (Version :: nonce)).getD i 0 ^^^ 2 ^ k := by
        rw [List.getD_eq_getElem _ _ (by simpa using hih), List.getElem_set_self]
      rw [← ha] at hgetset
      rw [List.getD_append _ _ _ _ hih] at hgetset
      exact xor_pow_ne _ _ hgetset.symm
  · -- flip inside the sealed body
    have hihge : (Version :: nonce).length ≤ i := by omega
    have hflip : flipBit ((Version :: nonce) ++ P.Seal key nonce msg (Version :: nonce)) i k
        = (Version :: nonce)
          ++ (P.Seal key nonce msg (Version :: nonce)).set (i - (Version :: nonce).length)
            (((Version :: nonce) ++ P.Seal key nonce msg (Version :: nonce)).getD i 0 ^^^ 2 ^ k) := by
      unfold flipBit
      rw [List.set_append, if_neg hih]
    rw [hflip]
    apply verify_append_none _ _ _ hhdr
    show P.Open key nonce _ _ = none
    cases ho : P.Open key nonce
        ((P.Seal key nonce msg (Version :: nonce)).set (i - (Version :: nonce).length)
          (((Version :: nonce) ++ P.Seal key nonce msg (Version :: nonce)).getD i 0 ^^^ 2 ^ k))
        (Version :: nonce) with
    | none => rfl
    | some m' =>
      exfalso
      have hseal := hP.open_some _ _ _ _ _ ho
      have hj : i - (Version :: nonce).length < (P.Seal key nonce msg (Version :: nonce)).length := by
        rw [List.length_append] at hi
        omega
      refine hP.set_ne_seal key nonce msg (Version :: nonce) m'
        (i - (Version :: nonce).length)
        (((Version :: nonce) ++ P.Seal key nonce msg (Version :: nonce)).getD i 0 ^^^ 2 ^ k)
        hj ?_ hseal
      rw [List.getD_append_right _ _ _ _ hihge]
      exact xor_pow_ne _ _

/-! ## Claim theorems -/

/-- C1: Round trip — for every 32-byte key, every message (including the
empty message) and every 24-byte nonce, `Verify` applied to the token
returned by `Sign(message, nonce)` on a Signer constructed from that key
succeeds and returns exactly the original message bytes. -/
theorem C1_round_trip (P : AEADPrim) (hP : P.Lawful) (key msg nonce : List Nat)
    (hn : nonce.length = 24) (s : Signer) (hs : New P key = .ok s)
    (rnd : Except Err (List Nat)) (t : List Nat)
    (ht : s.Sign msg (some nonce) rnd = .ok t) :
    s.Verify t = .ok msg := by
  obtain ⟨hk, rfl⟩ := New_inv P key s hs
  simp only [Signer.Sign] at ht
  obtain rfl := Except.ok.inj ht
  rw [sign_fresh _ _ _ hn]
  apply verify_append_some _ _ _ _ (by simp [hdrSize, NonceSize, hn])
  exact hP.open_seal key nonce msg (Version :: nonce)

/-- C2: Tamper detection — flipping any single bit at any position of a
token produced by `Sign` (header or body) makes `Verify` fail with the
authentication error; no modified message is ever returned. -/
theorem C2_tamper (P : AEADPrim) (hP : P.Lawful) (key msg nonce : List Nat)
    (hn : nonce.length = 24) (s : Signer) (hs : New P key = .ok s)
    (rnd : Except Err (List Nat)) (t : List Nat)
    (ht : s.Sign msg (some nonce) rnd = .ok t)
    (i k : Nat) (hi : i < t.length) (_hk8 : k < 8) :
    s.Verify (flipBit t i k) = .error .authFailed := by
  obtain ⟨hkey, rfl⟩ := New_inv P key s hs
  simp only [Signer.Sign] at ht
  obtain rfl := Except.ok.inj ht
  rw [sign_fresh _ _ _ hn] at hi ⊢
  exact verify_flip_fails P hP key msg nonce hn i k hi

/-- C3: Wire format — for every message and every supplied 24-byte nonce,
the token has length `25 + len(message) + 16`, byte 0 is the version tag
`'A'` (65), and bytes 1 through 24 are the nonce. -/
theorem C3_wire_format (P : AEADPrim) (hP : P.Lawful) (key msg nonce : List Nat)
    (hn : nonce.length = 24) (s : Signer) (hs : New P key = .ok s)
    (rnd : Except Err (List Nat)) (t : List Nat)
    (ht : s.Sign msg (some nonce) rnd = .ok t) :
    t.length = 25 + msg.length + 16 ∧ t.getD 0 0 = Version ∧
    (t.drop 1).take 24 = nonce := by
  obtain ⟨hk, rfl⟩ := New_inv P key s hs
  simp only [Signer.Sign] at ht
  obtain rfl := Except.ok.inj ht
  rw [sign_fresh _ _ _ hn]
  refine ⟨?_, rfl, ?_⟩
  · have hlen := hP.seal_length key nonce msg (Version :: nonce)
    show ((Version :: nonce) ++ P.Seal key nonce msg (Version :: nonce)).length = _
    rw [List.length_append, hlen]
    simp only [List.length_cons, hn, Overhead]
    omega
  · show List.take 24 (List.drop 1 ((Version :: nonce) ++ P.Seal key nonce msg (Version :: nonce))) = nonce
    have hdrop : List.drop 1 ((Version :: nonce) ++ P.Seal key nonce msg (Version :: nonce))
        = nonce ++ P.Seal key nonce msg (Version :: nonce) := rfl
    rw [hdrop, ← hn, List.take_left]

/-- C4: Determinism under explicit nonce — for a fixed key, a fixed
explicitly supplied nonce and a fixed message, any two `Sign` calls (on
Signers constructed from that key, under any two CSPRNG states) produce
byte-identical tokens, and such a call always produces a token. -/
theorem C4_deterministic (P : AEADPrim) (key msg nonce : List Nat)
    (s1 s2 : Signer) (h1 : New P key = .ok s1) (h2 : New P key = .ok s2)
    (rnd1 rnd2 : Except Err (List Nat)) :
    s1.Sign msg (some nonce) rnd1 = s2.Sign msg (some nonce) rnd2 ∧
    ∃ t, s1.Sign msg (some nonce) rnd1 = .ok t := by
  obtain ⟨-, rfl⟩ := New_inv P key s1 h1
  obtain ⟨-, rfl⟩ := New_inv P key s2 h2
  exact ⟨rfl, _, rfl⟩

/-- C5: Key length validation — `New` fails with the key-length error
exactly when the key is not 32 bytes long, and returns a Signer exactly
when it is. -/
theorem C5_key_length (P : AEADPrim) (key : List Nat) :
    (New P key = .error .keyLen ↔ key.length ≠ 32) ∧
    ((∃ s, New P key = .ok s) ↔ key.length = 32) := by
  have hKS : KeySize = 32 := rfl
  by_cases h : key.length = KeySize
  · rw [New_ok P key h]
    refine ⟨⟨fun hh => Except.noConfusion hh, fun hh => absurd (hKS ▸ h) hh⟩,
      ⟨fun _ => hKS ▸ h, fun _ => ⟨_, rfl⟩⟩⟩
  · have hne : New P key = .error .keyLen := by simp [New, NewX, h]
    rw [hne]
    refine ⟨⟨fun _ hh => h (hKS ▸ hh), fun _ => rfl⟩,
      ⟨?_, fun hh => absurd (hKS ▸ hh) h⟩⟩
    rintro ⟨s, hs⟩
    exact Except.noConfusion hs

/-- C6: Short input rejection — `Verify` fails with the too-short error
exactly when the input is shorter than 25 bytes (for any Signer and any
AEAD instance: the guard is checked before the AEAD is consulted, and
inputs of 25 bytes or more never produce this error). -/
theorem C6_short_input (s : Signer) (c : List Nat) :
    s.Verify c = .error .errShort ↔ c.length < 25 := by
  have h25 : hdrSize = 25 := rfl
  unfold Signer.Verify
  rw [h25]
  by_cases h : c.length < 25
  · simp [h]
  · rw [if_neg h]
    constructor
    · intro hh
      exfalso
      cases ho : s.aead.Open ((c.take 25).drop 1) (c.drop 25) (c.take 25) with
      | some m => rw [ho] at hh; simp at hh
      | none => rw [ho] at hh; simp at hh
    · intro hh
      exact absurd hh h

/-- C7: Wrong key rejection — a token produced by a Signer constructed
with key A fails `Verify` with the authentication error on a Signer
constructed with any different 32-byte key B. -/
theorem C7_wrong_key (P : AEADPrim) (hP : P.Lawful) (kA kB msg nonce : List Nat)
    (hn : nonce.length = 24) (hne : kA ≠ kB)
    (sA sB : Signer) (hA : New P kA = .ok sA) (hB : New P kB = .ok sB)
    (rnd : Except Err (List Nat)) (t : List Nat)
    (ht : sA.Sign msg (some nonce) rnd = .ok t) :
    sB.Verify t = .error .authFailed := by
  obtain ⟨hkA, rfl⟩ := New_inv P kA sA hA
  obtain ⟨hkB, rfl⟩ := New_inv P kB sB hB
  simp only [Signer.Sign] at ht
  obtain rfl := Except.ok.inj ht
  rw [sign_fresh _ _ _ hn]
  apply verify_append_none _ _ _ (by simp [hdrSize, NonceSize, hn])
  show P.Open kB nonce (P.Seal kA nonce msg (Version :: nonce)) (Version :: nonce) = none
  cases ho : P.Open kB nonce (P.Seal kA nonce msg (Version :: nonce)) (Version :: nonce) with
  | none => rfl
  | some m' =>
    exfalso
    have hseal := hP.open_some _ _ _ _ _ ho
    exact hne (hP.seal_inj _ _ _ _ _ _ _ _ hseal).1

/-- C9 (implicit): when the caller supplies a non-nil nonce, `Sign`
always succeeds with the token computed by `sign`, for every message and
independently of the CSPRNG; and when the nonce is nil, the only error
`Sign` can return is the nonce-generation error itself. -/
theorem C9_sign_total (s : Signer) (msg nonce : List Nat)
    (rnd : Except Err (List Nat)) :
    s.Sign msg (some nonce) rnd = .ok (s.sign msg nonce) ∧
    (∀ e, s.Sign msg none rnd = .error e → rnd = .error e) := by
  refine ⟨rfl, ?_⟩
  intro e he
  cases rnd with
  | error e' =>
    simp only [Signer.Sign] at he
    obtain rfl := Except.error.inj he
    rfl
  | ok nc =>
    simp only [Signer.Sign] at he
    exact Except.noConfusion he

/-- C10 (implicit): an input of at least 25 but fewer than 41 bytes (room
for the header but not for the 16-byte tag) is not rejected as too short;
it reaches the AEAD open and fails with the authentication error. -/
theorem C10_short_body (P : AEADPrim) (hP : P.Lawful) (key : List Nat)
    (s : Signer) (hs : New P key = .ok s) (c : List Nat)
    (h1 : 25 ≤ c.length) (h2 : c.length < 41) :
    s.Verify c = .error .authFailed := by
  obtain ⟨hk, rfl⟩ := New_inv P key s hs
  have h25 : hdrSize = 25 := rfl
  unfold Signer.Verify
  rw [h25, if_neg (by omega)]
  show (match P.Open key ((c.take 25).drop 1) (c.drop 25) (c.take 25) with
    | some m => Except.ok m
    | none => Except.error Err.authFailed) = Except.error Err.authFailed
  cases ho : P.Open key ((c.take 25).drop 1) (c.drop 25) (c.take 25) with
  | none => rfl
  | some m =>
    exfalso
    have hseal := hP.open_some _ _ _ _ _ ho
    have hlen := congrArg List.length hseal
    rw [List.length_drop, hP.seal_length] at hlen
    have hov : Overhead = 16 := rfl
    rw [hov] at hlen
    omega

/-- C8: Signer immutability (frame) — a `Sign` call and a `Verify` call
leave every field of the shared Signer (`aead`, `n`, `p`) exactly as it
was: header assembly happens on the per-call copy taken by the
value-receiver `sign`, never on the shared Signer value. -/
theorem C8_frame (s : Signer) (msg : List Nat) (nonce : Option (List Nat))
    (rnd : Except Err (List Nat)) (c : List Nat) :
    (s.signCall msg nonce rnd).2.aead = s.aead ∧
    (s.signCall msg nonce rnd).2.n = s.n ∧
    (s.signCall msg nonce rnd).2.p = s.p ∧
    (s.verifyCall c).2.aead = s.aead ∧
    (s.verifyCall c).2.n = s.n ∧
    (s.verifyCall c).2.p = s.p :=
  ⟨rfl, rfl, rfl, rfl, rfl, rfl⟩

/-! ## Concrete witnesses

Instantiations on the spec's concrete scenario (§8, property 8): key of
32 zero bytes, message "hello", nonce of 24 zero bytes, over the concrete
lawful primitive. -/

/-- A 32-byte all-zero key. -/
def keyW : List Nat := List.replicate 32 0

/-- A second, different 32-byte key. -/
def keyW2 : List Nat := 1 :: List.replicate 31 0

/-- A 24-byte all-zero nonce. -/
def nonceW : List Nat := List.replicate 24 0

/-- The message "hello". -/
def msgW : List Nat := [104, 101, 108, 108, 111]

/-- The Signer built from `keyW` over the concrete primitive. -/
def sW : Signer := ⟨⟨toyPrim.Seal keyW, toyPrim.Open keyW⟩, 0, List.replicate hdrSize 0⟩

/-- The Signer built from `keyW2` over the concrete primitive. -/
def sW2 : Signer := ⟨⟨toyPrim.Seal keyW2, toyPrim.Open keyW2⟩, 0, List.replicate hdrSize 0⟩

/-- The token obtained by signing `msgW` with nonce `nonceW` under `keyW`. -/
def tW : List Nat := Signer.sign sW msgW nonceW

/-- A 30-byte input: long enough for the header, too short for the tag. -/
def cW : List Nat := List.replicate 30 7

/-- Witness for the round-trip theorem on the concrete scenario. -/
theorem C1_round_trip_witness : Signer.Verify sW tW = .ok msgW :=
  C1_round_trip toyPrim toyPrim_lawful keyW msgW nonceW rfl sW rfl
    (.ok []) tW rfl

/-- Witness for the tamper-detection theorem: bit 0 of byte 0 flipped. -/
theorem C2_tamper_witness :
    Signer.Verify sW (flipBit tW 0 0) = .error .authFailed :=
  C2_tamper toyPrim toyPrim_lawful keyW msgW nonceW rfl sW rfl
    (.ok []) tW rfl 0 0 (by decide) (by decide)

/-- Witness for the wire-format theorem on the concrete scenario. -/
theorem C3_wire_format_witness :
    tW.length = 25 + msgW.length + 16 ∧ tW.getD 0 0 = Version ∧
    (tW.drop 1).take 24 = nonceW :=
  C3_wire_format toyPrim toyPrim_lawful keyW msgW nonceW rfl sW rfl
    (.ok []) tW rfl

/-- Witness for the determinism theorem: two CSPRNG states, same token. -/
theorem C4_deterministic_witness :
    Signer.Sign sW msgW (some nonceW) (.ok [])
      = Signer.Sign sW msgW (some nonceW) (.error .randFailure) ∧
    ∃ t, Signer.Sign sW msgW (some nonceW) (.ok []) = .ok t :=
  C4_deterministic toyPrim keyW msgW nonceW sW sW rfl rfl
    (.ok []) (.error .randFailure)

/-- Witness for the wrong-key theorem: `tW` under the other key fails. -/
theorem C7_wrong_key_witness : Signer.Verify sW2 tW = .error .authFailed :=
  C7_wrong_key toyPrim toyPrim_lawful keyW keyW2 msgW nonceW rfl (by decide)
    sW sW2 rfl rfl (.ok []) tW rfl

/-- Witness for the header-only-length theorem on a 30-byte input. -/
theorem C10_short_body_witness : Signer.Verify sW cW = .error .authFailed :=
  C10_short_body toyPrim toyPrim_lawful keyW sW rfl cW (by decide) (by decide)
